import Mathlib

/-!
Verification of the go-cosmwasm FFI boundary of SecretNetwork
(src/go-cosmwasm/api/bindings.h).

The repository file under verification is a cbindgen-generated C header: it
fixes the data model (status-code enums, buffer and vtable shapes) and the
call surface (create / get_code / analyze_code / instantiate / handle /
query / release_cache, the DB / API / Querier callback tables, and the
enclave lifecycle entry points), while the bodies live outside the staged
sources.  The types and discriminant values below are taken from the header;
every behavioural definition is modelled from the specification's
description of the boundary contract and is marked as such in its doc
comment.
-/

namespace SecretNet

/-- Status codes returned from Go callbacks to Rust
(bindings.h lines 25-48, enum GoResult). -/
inductive GoResult where
  | Ok
  | Panic
  | BadArgument
  | OutOfGas
  | Other
  | User
deriving DecidableEq

/-- The int32 value of each GoResult variant, as fixed by the header. -/
def GoResult.code : GoResult → Int
  | .Ok => 0
  | .Panic => 1
  | .BadArgument => 2
  | .OutOfGas => 3
  | .Other => 4
  | .User => 5

/-- Errno values set by the FFI entry points
(bindings.h lines 12-17, enum ErrnoValue). -/
inductive ErrnoValue where
  | Success
  | Other
  | OutOfGas
deriving DecidableEq

/-- The int32 value of each ErrnoValue variant, as fixed by the header. -/
def ErrnoValue.code : ErrnoValue → Int
  | .Success => 0
  | .Other => 1
  | .OutOfGas => 2

/-- The errno class an FFI entry point reports for an internal error class:
out-of-gas keeps its own discriminant, every other failure maps to Other. -/
def errnoOf : GoResult → ErrnoValue
  | .Ok => .Success
  | .OutOfGas => .OutOfGas
  | _ => .Other

/-- Byte strings crossing the boundary (the payload of a Buffer). -/
abbrev Bytes := List Nat

/-- A nullable cross-boundary buffer (bindings.h lines 50-54): none models a
null/unset Buffer, some bs a present buffer holding bs (possibly empty). -/
abbrev BufferOpt := Option Bytes

/-- Key/value store visible through the DB vtable.  Modelled from the spec:
the host key-value storage behind read_db/write_db/remove_db/scan_db,
as an association list from keys to values. -/
abbrev Store := List (Bytes × Bytes)

/-- Look a key up in the store; none models the "absent" answer. -/
def Store.get : Store → Bytes → Option Bytes
  | [], _ => none
  | (k, v) :: rest, key => if k = key then some v else Store.get rest key

/-- Write a key, replacing any previous binding. -/
def Store.set : Store → Bytes → Bytes → Store
  | [], key, value => [(key, value)]
  | (k, v) :: rest, key, value =>
      if k = key then (key, value) :: rest else (k, v) :: Store.set rest key value

/-- Remove a key; succeeds (as a no-op) even if the key was absent. -/
def Store.del : Store → Bytes → Store
  | [], _ => []
  | (k, v) :: rest, key => if k = key then Store.del rest key else (k, v) :: Store.del rest key

/-- Modelled from the spec: the host gas-cost policy, proportional to data
touched.  Cost of a read of key k that found value v. -/
def readCost (key : Bytes) (found : Option Bytes) : Nat :=
  key.length + (match found with | some v => v.length | none => 0) + 1

/-- Modelled from the spec: cost of writing value v under key k. -/
def writeCost (key value : Bytes) : Nat := key.length + value.length + 1

/-- Modelled from the spec: cost of removing key k. -/
def removeCost (key : Bytes) : Nat := key.length + 1

/-- Modelled from the spec: cost of setting up a scan over the given bounds. -/
def scanCost (start stop : Option Bytes) : Nat :=
  (match start with | some s => s.length | none => 0) +
  (match stop with | some e => e.length | none => 0) + 1

/-- Modelled from the spec: deduct cost from the meter before the operation
returns; none when doing so would exceed the limit (the out-of-gas case). -/
def chargeGas (limit used cost : Nat) : Option Nat :=
  if used + cost ≤ limit then some (used + cost) else none

theorem chargeGas_le {limit used cost g : Nat} (h : chargeGas limit used cost = some g) :
    g ≤ limit := by
  unfold chargeGas at h
  split at h
  · cases h; assumption
  · cases h

theorem chargeGas_over {limit used cost : Nat} (h : limit < used + cost) :
    chargeGas limit used cost = none := by
  unfold chargeGas
  split
  · omega
  · rfl

/-- The three gas-metered execution entry points of the header: instantiate
(bindings.h line 183), handle (line 164) and query (line 197). -/
inductive ExecMode where
  | Instantiate
  | Execute
  | Query
deriving DecidableEq

/-- Modelled from the spec: one callback the sandboxed module issues through
the Storage Bridge during an execution, or a slice of internal computation.
The module's behaviour at an entry point is an arbitrary list of these. -/
inductive ContractOp where
  | compute (cost : Nat)
  | read (key : Bytes)
  | write (key value : Bytes)
  | remove (key : Bytes)
  | scan (start stop : Option Bytes) (descending : Bool)
deriving DecidableEq

/-- The state threaded through one execution call: the staged store and the
shared gas meter's used counter. -/
structure ExecState where
  store : Store
  gasUsed : Nat
deriving DecidableEq

/-- Modelled from the spec: one Storage Bridge callback under the shared gas
meter.  Cost is deducted before the operation's side effect happens; a charge
that would exceed the limit aborts with out-of-gas and the side effect is
skipped; write/remove during a query call fail with bad-argument and leave
the store unchanged. -/
def stepOp (mode : ExecMode) (limit : Nat) (st : ExecState) : ContractOp → Except GoResult ExecState
  | .compute c =>
      match chargeGas limit st.gasUsed c with
      | some g => .ok { st with gasUsed := g }
      | none => .error .OutOfGas
  | .read key =>
      match chargeGas limit st.gasUsed (readCost key (st.store.get key)) with
      | some g => .ok { st with gasUsed := g }
      | none => .error .OutOfGas
  | .write key value =>
      if mode = .Query then .error .BadArgument
      else
        match chargeGas limit st.gasUsed (writeCost key value) with
        | some g => .ok { store := st.store.set key value, gasUsed := g }
        | none => .error .OutOfGas
  | .remove key =>
      if mode = .Query then .error .BadArgument
      else
        match chargeGas limit st.gasUsed (removeCost key) with
        | some g => .ok { store := st.store.del key, gasUsed := g }
        | none => .error .OutOfGas
  | .scan start stop _ =>
      match chargeGas limit st.gasUsed (scanCost start stop) with
      | some g => .ok { st with gasUsed := g }
      | none => .error .OutOfGas

/-- Modelled from the spec: run the module's callbacks in issue order,
aborting at the first failure (first component GoResult.Ok means the whole
list ran; on failure the state frozen at the failing callback is returned,
holding only staged writes). -/
def runOps (mode : ExecMode) (limit : Nat) : List ContractOp → ExecState → GoResult × ExecState
  | [], st => (.Ok, st)
  | op :: ops, st =>
      match stepOp mode limit st op with
      | .ok st' => runOps mode limit ops st'
      | .error r => (r, st)

/-- What an FFI execution entry point reports back: the error class (Ok on
success), the store the caller ends up with, the value written through the
gas_used out-parameter, the output buffer, and the error message buffer. -/
structure CallResult where
  result : GoResult
  store : Store
  gasUsed : Nat
  output : BufferOpt
  errMsg : Option String
deriving DecidableEq

/-- Modelled from the spec: one execution call.  On success the staged writes
are the caller's to persist; on any failure (out-of-gas included) the staged
writes are discarded atomically and the caller's store is unchanged.  On
out-of-gas the whole budget is reported as used; gas_used never exceeds the
limit. -/
def execCall (mode : ExecMode) (limit : Nat) (ops : List ContractOp) (store : Store) : CallResult :=
  match runOps mode limit ops { store := store, gasUsed := 0 } with
  | (.Ok, st) => { result := .Ok, store := st.store, gasUsed := st.gasUsed,
                   output := some [], errMsg := none }
  | (.OutOfGas, _) => { result := .OutOfGas, store := store, gasUsed := limit,
                        output := none, errMsg := some "out of gas" }
  | (r, st) => { result := r, store := store, gasUsed := st.gasUsed,
                 output := none, errMsg := some "callback error" }

theorem stepOp_gas_le {mode : ExecMode} {limit : Nat} {st st' : ExecState} {op : ContractOp}
    (hst : st.gasUsed ≤ limit) (h : stepOp mode limit st op = .ok st') :
    st'.gasUsed ≤ limit := by
  cases op <;> simp only [stepOp] at h
  case compute c =>
    cases hg : chargeGas limit st.gasUsed c with
    | none => rw [hg] at h; cases h
    | some g => rw [hg] at h; cases h; exact chargeGas_le hg
  case read key =>
    cases hg : chargeGas limit st.gasUsed (readCost key (st.store.get key)) with
    | none => rw [hg] at h; cases h
    | some g => rw [hg] at h; cases h; exact chargeGas_le hg
  case write key value =>
    split at h
    · cases h
    · cases hg : chargeGas limit st.gasUsed (writeCost key value) with
      | none => rw [hg] at h; cases h
      | some g => rw [hg] at h; cases h; exact chargeGas_le hg
  case remove key =>
    split at h
    · cases h
    · cases hg : chargeGas limit st.gasUsed (removeCost key) with
      | none => rw [hg] at h; cases h
      | some g => rw [hg] at h; cases h; exact chargeGas_le hg
  case scan start stop descending =>
    cases hg : chargeGas limit st.gasUsed (scanCost start stop) with
    | none => rw [hg] at h; cases h
    | some g => rw [hg] at h; cases h; exact chargeGas_le hg

theorem runOps_gas_le {mode : ExecMode} {limit : Nat} (ops : List ContractOp) (st : ExecState)
    (hst : st.gasUsed ≤ limit) :
    (runOps mode limit ops st).2.gasUsed ≤ limit := by
  induction ops generalizing st with
  | nil => exact hst
  | cons op ops ih =>
      simp only [runOps]
      cases h : stepOp mode limit st op with
      | ok st' => exact ih st' (stepOp_gas_le hst h)
      | error r => exact hst

theorem execCall_gas_le (mode : ExecMode) (limit : Nat) (ops : List ContractOp) (store : Store) :
    (execCall mode limit ops store).gasUsed ≤ limit := by
  unfold execCall
  have h := @runOps_gas_le mode limit ops { store := store, gasUsed := 0 } (Nat.zero_le _)
  cases hr : runOps mode limit ops { store := store, gasUsed := 0 } with
  | mk r st =>
      rw [hr] at h
      cases r <;> simpa using h

theorem execCall_error_store (mode : ExecMode) (limit : Nat) (ops : List ContractOp)
    (store : Store) :
    (execCall mode limit ops store).result ≠ .Ok →
      (execCall mode limit ops store).store = store := by
  unfold execCall
  cases hr : runOps mode limit ops { store := store, gasUsed := 0 } with
  | mk r st => cases r <;> simp

/-- stepOp in query mode never touches the store. -/
theorem stepOp_query_store {limit : Nat} {st st' : ExecState} {op : ContractOp}
    (h : stepOp .Query limit st op = .ok st') : st'.store = st.store := by
  cases op <;> simp only [stepOp] at h
  case compute c =>
    cases hg : chargeGas limit st.gasUsed c with
    | none => rw [hg] at h; cases h
    | some g => rw [hg] at h; cases h; rfl
  case read key =>
    cases hg : chargeGas limit st.gasUsed (readCost key (st.store.get key)) with
    | none => rw [hg] at h; cases h
    | some g => rw [hg] at h; cases h; rfl
  case write key value => simp at h
  case remove key => simp at h
  case scan start stop descending =>
    cases hg : chargeGas limit st.gasUsed (scanCost start stop) with
    | none => rw [hg] at h; cases h
    | some g => rw [hg] at h; cases h; rfl

theorem runOps_query_store (limit : Nat) (ops : List ContractOp) (st : ExecState) :
    (runOps .Query limit ops st).2.store = st.store := by
  induction ops generalizing st with
  | nil => rfl
  | cons op ops ih =>
      simp only [runOps]
      cases h : stepOp .Query limit st op with
      | ok st' => rw [ih st', stepOp_query_store h]
      | error r => rfl

theorem execCall_query_store (limit : Nat) (ops : List ContractOp) (store : Store) :
    (execCall .Query limit ops store).store = store := by
  unfold execCall
  have h := runOps_query_store limit ops { store := store, gasUsed := 0 }
  cases hr : runOps .Query limit ops { store := store, gasUsed := 0 } with
  | mk r st =>
      rw [hr] at h
      cases r <;> simpa using h

/-- Modelled from the spec: the content checksum keying the Module Cache.
The implementation's fixed-size cryptographic hash of the exact bytecode
bytes is modelled as an injective function of those bytes (hash collisions
are assumed away), keeping it a deterministic function of the content. -/
def checksum (b : Bytes) : Bytes := b.length :: b

theorem checksum_injective {b₁ b₂ : Bytes} (h : checksum b₁ = checksum b₂) : b₁ = b₂ := by
  unfold checksum at h
  exact (List.cons.injEq _ _ _ _ ▸ h).2

/-- Modelled from the spec: structural validation of submitted bytecode —
the module must carry the WebAssembly magic header. -/
def validWasm (b : Bytes) : Bool := decide (b.take 4 = [0, 97, 115, 109])

/-- Modelled from the spec: the compiled artifact produced from validated
bytecode (compilation itself is an external collaborator; the artifact is
modelled as a tagged copy of the bytes it was compiled from). -/
def compileArtifact (b : Bytes) : Bytes := 1 :: b

/-- Modelled from the spec: the capability/feature names the bytecode
declares, recovered by static inspection — the comma-separated tail of the
module's feature section (the bytes after the 8-byte header), split on
commas (byte 44). -/
def featureSplit : Bytes → List Bytes
  | [] => []
  | b :: rest =>
      match featureSplit rest with
      | [] => if b = 44 then [[], []] else [[b]]
      | f :: fs => if b = 44 then [] :: f :: fs else (b :: f) :: fs

/-- Join a feature list back into one comma-separated UTF-8 buffer. -/
def featureJoin : List Bytes → Bytes
  | [] => []
  | [f] => f
  | f :: fs => f ++ 44 :: featureJoin fs

/-- Modelled from the spec: the features declared by a module's bytecode. -/
def requiredFeaturesOf (b : Bytes) : List Bytes := featureSplit (b.drop 8)

/-- Modelled from the spec: whether static inspection finds the special
(IBC) entry points, flagged in the byte after the magic header. -/
def hasIbcEntryPoints (b : Bytes) : Bool := decide (b.get? 4 = some 1)

/-- One Module Cache entry: immutable after its first successful
validation+compile (spec data model). -/
structure CacheEntry where
  bytecode : Bytes
  artifact : Bytes
  features : List Bytes
deriving DecidableEq

/-- The Module Cache behind a cache_t handle (bindings.h line 72).  Modelled
from the spec: entries keyed by checksum and a released flag (release_cache
invalidates everything). -/
structure Cache where
  released : Bool
  entries : List (Bytes × CacheEntry)
deriving DecidableEq

/-- Look an entry up by checksum. -/
def lookupEntry : List (Bytes × CacheEntry) → Bytes → Option CacheEntry
  | [], _ => none
  | (k, e) :: rest, key => if k = key then some e else lookupEntry rest key

/-- The cache a fresh init_cache (bindings.h line 179) hands out. -/
def emptyCache : Cache := { released := false, entries := [] }

/-- An error reported through an FFI error-message out-buffer, carrying its
class in the spec's six-way taxonomy and a human-readable message. -/
structure CallError where
  cls : GoResult
  msg : String
deriving DecidableEq

/-- Modelled from the spec: create (bindings.h line 152) validates the
bytecode, compiles it, stores the artifact keyed by the content checksum and
returns the checksum.  A second create of identical bytes finds the entry
and resolves to the first's result without recompiling.  The returned Nat is
how many fresh compilations the call performed (the spec's compile-count
instrumentation hook). -/
def Cache.create (c : Cache) (wasm : Bytes) : Except CallError (Bytes × Cache × Nat) :=
  if c.released then .error { cls := .BadArgument, msg := "cache released" }
  else if validWasm wasm then
    match lookupEntry c.entries (checksum wasm) with
    | some _ => .ok (checksum wasm, c, 0)
    | none =>
        .ok (checksum wasm,
          { c with entries := (checksum wasm,
              { bytecode := wasm, artifact := compileArtifact wasm,
                features := requiredFeaturesOf wasm }) :: c.entries },
          1)
  else .error { cls := .Other, msg := "invalid bytecode" }

/-- Modelled from the spec: get_code (bindings.h line 158) retrieves the
original bytecode for audit/export; not-found on an unknown checksum. -/
def Cache.get_code (c : Cache) (cs : Bytes) : Except CallError Bytes :=
  if c.released then .error { cls := .BadArgument, msg := "cache released" }
  else
    match lookupEntry c.entries cs with
    | some e => .ok e.bytecode
    | none => .error { cls := .Other, msg := "code not found" }

/-- The result type of analyze_code (bindings.h lines 63-70): the
required_features Buffer is nullable at the C level, so it is modelled as an
Option that the header documents to never be none. -/
structure AnalysisReport where
  has_ibc_entry_points : Bool
  required_features : BufferOpt
deriving DecidableEq

/-- Modelled from the spec: analyze_code (bindings.h line 148) statically
inspects a cached module without executing it. -/
def Cache.analyze_code (c : Cache) (cs : Bytes) : Except CallError AnalysisReport :=
  if c.released then .error { cls := .BadArgument, msg := "cache released" }
  else
    match lookupEntry c.entries cs with
    | some e =>
        .ok { has_ibc_entry_points := hasIbcEntryPoints e.bytecode,
              required_features := some (featureJoin e.features) }
    | none => .error { cls := .Other, msg := "code not found" }

/-- Modelled from the spec: release_cache (bindings.h line 216) invalidates
the entire cache and all artifacts. -/
def Cache.release_cache (c : Cache) : Cache := { released := true, entries := [] }

/-- Modelled from the spec: shared front half of the three execution entry
points — reject a released cache, look the checksum up, then run the
module's entry point (its behaviour given as the list of callbacks it
issues) under the gas limit. -/
def Cache.execEntry (c : Cache) (mode : ExecMode) (cs : Bytes) (ops : List ContractOp)
    (store : Store) (limit : Nat) : CallResult :=
  if c.released then
    { result := .BadArgument, store := store, gasUsed := 0,
      output := none, errMsg := some "cache released" }
  else
    match lookupEntry c.entries cs with
    | none => { result := .Other, store := store, gasUsed := 0,
                output := none, errMsg := some "code not found" }
    | some _ => execCall mode limit ops store

/-- instantiate (bindings.h lines 183-193), with the module's behaviour made
explicit as its callback trace. -/
def Cache.instantiate (c : Cache) (cs : Bytes) (ops : List ContractOp) (store : Store)
    (limit : Nat) : CallResult :=
  c.execEntry .Instantiate cs ops store limit

/-- handle, i.e. execute (bindings.h lines 164-175). -/
def Cache.handle (c : Cache) (cs : Bytes) (ops : List ContractOp) (store : Store)
    (limit : Nat) : CallResult :=
  c.execEntry .Execute cs ops store limit

/-- query (bindings.h lines 197-206): same engine, read-only mode. -/
def Cache.query (c : Cache) (cs : Bytes) (ops : List ContractOp) (store : Store)
    (limit : Nat) : CallResult :=
  c.execEntry .Query cs ops store limit

/-- A cache handle is well-formed when every entry sits under the checksum
of its own bytecode, with the artifact and features derived from it — true
of every cache the API can build. -/
def cacheWF (c : Cache) : Bool :=
  c.entries.all fun p =>
    decide (p.1 = checksum p.2.bytecode) &&
    decide (p.2.artifact = compileArtifact p.2.bytecode) &&
    decide (p.2.features = requiredFeaturesOf p.2.bytecode)

/-- Lexicographic order on keys (byte strings), the bound order of scans. -/
def keyLe : Bytes → Bytes → Bool
  | [], _ => true
  | _ :: _, [] => false
  | a :: as, b :: bs => decide (a < b) || (decide (a = b) && keyLe as bs)

theorem keyLe_total (a b : Bytes) : keyLe a b = true ∨ keyLe b a = true := by
  induction a generalizing b with
  | nil => left; rfl
  | cons x xs ih =>
      cases b with
      | nil => right; rfl
      | cons y ys =>
          rcases Nat.lt_trichotomy x y with h | h | h
          · left; simp [keyLe, h]
          · subst h
            rcases ih ys with h' | h'
            · left; simp [keyLe, h']
            · right; simp [keyLe, h']
          · right; simp [keyLe, h]

theorem keyLe_trans {a b c : Bytes} (h₁ : keyLe a b = true) (h₂ : keyLe b c = true) :
    keyLe a c = true := by
  induction a generalizing b c with
  | nil => rfl
  | cons x xs ih =>
      cases b with
      | nil => simp [keyLe] at h₁
      | cons y ys =>
          cases c with
          | nil => simp [keyLe] at h₂
          | cons z zs =>
              simp only [keyLe, Bool.or_eq_true, Bool.and_eq_true, decide_eq_true_eq] at h₁ h₂ ⊢
              rcases h₁ with h₁ | ⟨rfl, h₁⟩
              · rcases h₂ with h₂ | ⟨rfl, _⟩
                · exact Or.inl (Nat.lt_trans h₁ h₂)
                · exact Or.inl h₁
              · rcases h₂ with h₂ | ⟨rfl, h₂⟩
                · exact Or.inl h₂
                · exact Or.inr ⟨rfl, ih h₁ h₂⟩

/-- The scan order lifted to key/value entries. -/
def entryLe (p q : Bytes × Bytes) : Prop := keyLe p.1 q.1 = true

instance : DecidableRel entryLe := fun p q =>
  inferInstanceAs (Decidable (keyLe p.1 q.1 = true))

instance : IsTotal (Bytes × Bytes) entryLe := ⟨fun p q => keyLe_total p.1 q.1⟩

instance : IsTrans (Bytes × Bytes) entryLe := ⟨fun _ _ _ h₁ h₂ => keyLe_trans h₁ h₂⟩

/-- Modelled from the spec: membership in a scan's bounds —
inclusive start, exclusive end, over the lexicographic byte order; an absent
bound is unbounded. -/
def inScanRange (start stop : Option Bytes) (k : Bytes) : Bool :=
  (match start with | none => true | some s => keyLe s k) &&
  (match stop with | none => true | some e => !keyLe e k)

/-- Modelled from the spec: the entries a scan enumerates — the in-range
entries of the store, in ascending lexicographic key order, reversed for a
descending scan. -/
def scanList (s : Store) (start stop : Option Bytes) (descending : Bool) :
    List (Bytes × Bytes) :=
  let asc := List.insertionSort entryLe (s.filter fun p => inScanRange start stop p.1)
  if descending then asc.reverse else asc

/-- The iterator state behind a GoIter (bindings.h lines 100-104).  Modelled
from the spec: the cursor is the list of entries not yet consumed. -/
structure GoIter where
  entries : List (Bytes × Bytes)
deriving DecidableEq

/-- Modelled from the spec: the next_db callback of the Iterator vtable
(bindings.h line 97).  Gas is charged in proportion to the data handed over,
so an exhausted cursor answers with the explicit exhausted marker
(Ok with no pair) at no cost — never an error — and stays exhausted. -/
def next_db (limit used : Nat) (it : GoIter) :
    GoResult × Nat × Option (Bytes × Bytes) × GoIter × Option String :=
  match it.entries with
  | [] => (.Ok, used, none, it, none)
  | (k, v) :: rest =>
      match chargeGas limit used (k.length + v.length + 1) with
      | some g => (.Ok, g, some (k, v), { entries := rest }, none)
      | none => (.OutOfGas, limit, none, it, some "out of gas")

/-- Modelled from the spec: the scan_db callback of the DB vtable
(bindings.h line 110): charge for the scan, then hand back a fresh cursor
over the in-range entries in the bound order. -/
def scan_db (s : Store) (limit used : Nat) (start stop : Option Bytes) (descending : Bool) :
    GoResult × Nat × Option GoIter × Option String :=
  match chargeGas limit used (scanCost start stop) with
  | some g => (.Ok, g, some { entries := scanList s start stop descending }, none)
  | none => (.OutOfGas, limit, none, some "out of gas")

/-- Modelled from the spec: the read_db callback of the DB vtable
(bindings.h line 107).  Key-not-found is a success with the absent marker,
never an error. -/
def read_db (s : Store) (limit used : Nat) (key : Bytes) :
    GoResult × Nat × BufferOpt × Option String :=
  match chargeGas limit used (readCost key (s.get key)) with
  | some g => (.Ok, g, s.get key, none)
  | none => (.OutOfGas, limit, none, some "out of gas")

/-- Modelled from the spec: the write_db callback of the DB vtable
(bindings.h line 108); the readonly flag is set for the store handle a query
call passes in, and a write through it is a bad argument. -/
def write_db (readonly : Bool) (s : Store) (limit used : Nat) (key value : Bytes) :
    GoResult × Store × Nat × Option String :=
  if readonly then (.BadArgument, s, used, some "cannot write during query")
  else
    match chargeGas limit used (writeCost key value) with
    | some g => (.Ok, s.set key value, g, none)
    | none => (.OutOfGas, s, limit, some "out of gas")

/-- Modelled from the spec: the remove_db callback of the DB vtable
(bindings.h line 109); succeeds even if the key was absent. -/
def remove_db (readonly : Bool) (s : Store) (limit used : Nat) (key : Bytes) :
    GoResult × Store × Nat × Option String :=
  if readonly then (.BadArgument, s, used, some "cannot write during query")
  else
    match chargeGas limit used (removeCost key) with
    | some g => (.Ok, s.del key, g, none)
    | none => (.OutOfGas, s, limit, some "out of gas")

/-- Bytes allowed in a human-readable address: lowercase letters, digits,
and uppercase letters (which normalization folds down). -/
def isAddrByte (b : Nat) : Bool :=
  (decide (97 ≤ b) && decide (b ≤ 122)) || (decide (48 ≤ b) && decide (b ≤ 57)) ||
  (decide (65 ≤ b) && decide (b ≤ 90))

/-- Case folding of one address byte. -/
def toLowerByte (b : Nat) : Nat := if 65 ≤ b ∧ b ≤ 90 then b + 32 else b

/-- Bytes allowed in a canonical address: lowercase letters and digits. -/
def isCanonByte (b : Nat) : Bool :=
  (decide (97 ≤ b) && decide (b ≤ 122)) || (decide (48 ≤ b) && decide (b ≤ 57))

/-- Modelled from the spec: syntactic validity of a human address. -/
def validHuman (x : Bytes) : Bool := !x.isEmpty && x.all isAddrByte

/-- Modelled from the spec: validity of a canonical address. -/
def validCanon (x : Bytes) : Bool := !x.isEmpty && x.all isCanonByte

/-- Modelled from the spec: canonicalize — normalize a syntactically valid
human address to its canonical bytes; none on malformed input. -/
def canonicalizeAddr (x : Bytes) : Option Bytes :=
  if validHuman x then some (x.map toLowerByte) else none

/-- Modelled from the spec: humanize — render canonical bytes as a human
string; none on malformed input. -/
def humanizeAddr (x : Bytes) : Option Bytes :=
  if validCanon x then some x else none

/-- Modelled from the spec: two human addresses are equivalent when they
normalize to the same canonical form (equivalent, not byte-identical). -/
def addrEquiv (x y : Bytes) : Bool := decide (x.map toLowerByte = y.map toLowerByte)

/-- Modelled from the spec: gas cost of one address translation. -/
def addrCost (x : Bytes) : Nat := x.length + 1

/-- Modelled from the spec: the canonicalize_address callback of the GoApi
vtable (bindings.h line 125): bad-argument on a malformed human address,
otherwise a gas-charged translation. -/
def canonicalize_address (limit used : Nat) (human : Bytes) :
    GoResult × Nat × BufferOpt × Option String :=
  match canonicalizeAddr human with
  | none => (.BadArgument, used, none, some "invalid address")
  | some canon =>
      match chargeGas limit used (addrCost human) with
      | some g => (.Ok, g, some canon, none)
      | none => (.OutOfGas, limit, none, some "out of gas")

/-- Modelled from the spec: the humanize_address callback of the GoApi
vtable (bindings.h line 124). -/
def humanize_address (limit used : Nat) (canon : Bytes) :
    GoResult × Nat × BufferOpt × Option String :=
  match humanizeAddr canon with
  | none => (.BadArgument, used, none, some "invalid address")
  | some human =>
      match chargeGas limit used (addrCost canon) with
      | some g => (.Ok, g, some human, none)
      | none => (.OutOfGas, limit, none, some "out of gas")

/-- Modelled from the spec: the query_external callback of the Querier
vtable (bindings.h line 138), routing a request to a host-side answer table;
an unanswerable request is a user/contract-domain error fed back to the
contract. -/
def query_external (table : List (Bytes × Bytes)) (limit used : Nat) (request : Bytes) :
    GoResult × Nat × BufferOpt × Option String :=
  match chargeGas limit used (request.length + 1) with
  | none => (.OutOfGas, limit, none, some "out of gas")
  | some g =>
      match Store.get table request with
      | some resp => (.Ok, g, some resp, none)
      | none => (.User, g, none, some "query failed")

/-- Modelled from the spec: the enclave lifecycle states
(uninitialized, bootstrapped, node_initialized, ready). -/
inductive EnclaveState where
  | uninitialized
  | bootstrapped
  | nodeInitialized (seed : Bytes)
  | ready (seed : Bytes)
deriving DecidableEq

/-- Modelled from the spec: the integrity tag sealing a seed to the master
key (the sealing MAC, modelled with the content checksum). -/
def sealTag (masterKey payload : Bytes) : Bytes := checksum (masterKey ++ payload)

/-- An encrypted seed as produced by init_bootstrap: the sealed payload and
its integrity tag. -/
structure EncryptedSeed where
  tag : Bytes
  payload : Bytes
deriving DecidableEq

/-- Modelled from the spec: init_node (bindings.h line 181) unseals the seed
inside the enclave and transitions bootstrapped to node_initialized; it
fails closed on any integrity mismatch, leaving the state untouched. -/
def init_node (st : EnclaveState) (masterKey : Bytes) (es : EncryptedSeed) :
    Bool × EnclaveState :=
  match st with
  | .bootstrapped =>
      if sealTag masterKey es.payload = es.tag then (true, .nodeInitialized es.payload)
      else (false, .bootstrapped)
  | _ => (false, st)

theorem execEntry_gas_le (c : Cache) (mode : ExecMode) (cs : Bytes) (ops : List ContractOp)
    (store : Store) (limit : Nat) :
    (c.execEntry mode cs ops store limit).gasUsed ≤ limit := by
  unfold Cache.execEntry
  split
  · exact Nat.zero_le _
  · cases lookupEntry c.entries cs with
    | none => exact Nat.zero_le _
    | some e => exact execCall_gas_le mode limit ops store

theorem execEntry_outOfGas_store (c : Cache) (mode : ExecMode) (cs : Bytes)
    (ops : List ContractOp) (store : Store) (limit : Nat)
    (h : (c.execEntry mode cs ops store limit).result = .OutOfGas) :
    (c.execEntry mode cs ops store limit).store = store := by
  unfold Cache.execEntry at h ⊢
  by_cases hr : c.released = true
  · simp [hr]
  · simp only [if_neg hr] at h ⊢
    cases he : lookupEntry c.entries cs with
    | none => simp [he]
    | some e =>
        rw [he] at h
        simp only [he]
        exact execCall_error_store mode limit ops store (by rw [h]; intro hc; cases hc)

/-- C1: for every call to instantiate, handle (execute), or query, the
gas-used value written back never exceeds the supplied gas limit; an
execution in which consuming the required gas would exceed the limit
reports out-of-gas with the failing Storage Bridge operation's side effect
skipped, and an out-of-gas call leaves the caller's store exactly as it was
(no storage write of the call is visible). -/
theorem gas_accounting_sound (c : Cache) (cs : Bytes) (ops : List ContractOp)
    (store : Store) (limit : Nat) :
    (c.instantiate cs ops store limit).gasUsed ≤ limit ∧
    (c.handle cs ops store limit).gasUsed ≤ limit ∧
    (c.query cs ops store limit).gasUsed ≤ limit ∧
    ((c.instantiate cs ops store limit).result = .OutOfGas →
      (c.instantiate cs ops store limit).store = store) ∧
    ((c.handle cs ops store limit).result = .OutOfGas →
      (c.handle cs ops store limit).store = store) ∧
    ((c.query cs ops store limit).result = .OutOfGas →
      (c.query cs ops store limit).store = store) ∧
    (∀ (mode : ExecMode) (st : ExecState) (k v : Bytes), mode ≠ .Query →
      limit < st.gasUsed + writeCost k v →
        stepOp mode limit st (.write k v) = .error .OutOfGas) ∧
    (∀ (mode : ExecMode) (st : ExecState) (k : Bytes), mode ≠ .Query →
      limit < st.gasUsed + removeCost k →
        stepOp mode limit st (.remove k) = .error .OutOfGas) := by
  refine ⟨execEntry_gas_le c .Instantiate cs ops store limit,
          execEntry_gas_le c .Execute cs ops store limit,
          execEntry_gas_le c .Query cs ops store limit,
          execEntry_outOfGas_store c .Instantiate cs ops store limit,
          execEntry_outOfGas_store c .Execute cs ops store limit,
          execEntry_outOfGas_store c .Query cs ops store limit,
          ?_, ?_⟩
  · intro mode st k v hm hover
    simp only [stepOp, if_neg hm, chargeGas_over hover]
  · intro mode st k hm hover
    simp only [stepOp, if_neg hm, chargeGas_over hover]

/-- C3: during a query call, every write or remove issued through the
Storage Bridge fails with a bad-argument-class error and leaves the store
unchanged — the visible store of a query call is always exactly the caller's
store — while instantiate and execute do let a write mutate it. -/
theorem query_mode_readonly (c : Cache) (cs : Bytes) (ops : List ContractOp)
    (store s : Store) (limit used : Nat) (st : ExecState) (k v : Bytes) :
    stepOp .Query limit st (.write k v) = .error .BadArgument ∧
    stepOp .Query limit st (.remove k) = .error .BadArgument ∧
    (write_db true s limit used k v).1 = .BadArgument ∧
    (write_db true s limit used k v).2.1 = s ∧
    (remove_db true s limit used k).1 = .BadArgument ∧
    (remove_db true s limit used k).2.1 = s ∧
    (c.query cs ops store limit).store = store ∧
    (execCall .Instantiate 10 [.write [1] [2]] []).store = [([1], [2])] ∧
    (execCall .Execute 10 [.write [1] [2]] []).store = [([1], [2])] := by
  refine ⟨rfl, rfl, rfl, rfl, rfl, rfl, ?_, by decide, by decide⟩
  unfold Cache.query Cache.execEntry
  split
  · rfl
  · cases lookupEntry c.entries cs with
    | none => rfl
    | some e => exact execCall_query_store limit ops store

/-- The closed set of discriminants a Go callback may return, as the header
enumerates them. -/
def goResultCodes : List Int := [0, 1, 2, 3, 4, 5]

/-- A reported callback outcome obeys the taxonomy: its discriminant is one
of the closed six-outcome set, and it carries an explanatory message buffer
exactly when it is not a success. -/
def wellClassed (r : GoResult) (m : Option String) : Prop :=
  r.code ∈ goResultCodes ∧ (r = .Ok ↔ m = none)

/-- C2: every cross-boundary callback — read, write, remove, scan, next,
humanize, canonicalize, query — reports exactly one discriminant from the
closed six-outcome set of the GoResult enum, pairs every non-success outcome
with an explanatory message buffer, and reports absence of data (key not
found) as a success with the absent marker, never as an error. -/
theorem callback_taxonomy (s table : Store) (limit used : Nat)
    (key value request : Bytes) (start stop : Option Bytes) (descending readonly : Bool)
    (it : GoIter) :
    wellClassed (read_db s limit used key).1 (read_db s limit used key).2.2.2 ∧
    wellClassed (write_db readonly s limit used key value).1
      (write_db readonly s limit used key value).2.2.2 ∧
    wellClassed (remove_db readonly s limit used key).1
      (remove_db readonly s limit used key).2.2.2 ∧
    wellClassed (scan_db s limit used start stop descending).1
      (scan_db s limit used start stop descending).2.2.2 ∧
    wellClassed (next_db limit used it).1 (next_db limit used it).2.2.2.2 ∧
    wellClassed (humanize_address limit used key).1 (humanize_address limit used key).2.2.2 ∧
    wellClassed (canonicalize_address limit used key).1
      (canonicalize_address limit used key).2.2.2 ∧
    wellClassed (query_external table limit used request).1
      (query_external table limit used request).2.2.2 ∧
    (s.get key = none → used + readCost key none ≤ limit →
      (read_db s limit used key).1 = .Ok ∧ (read_db s limit used key).2.2.1 = none) := by
  refine ⟨?_, ?_, ?_, ?_, ?_, ?_, ?_, ?_, ?_⟩
  · unfold read_db
    cases chargeGas limit used (readCost key (s.get key)) <;>
      simp [wellClassed, goResultCodes, GoResult.code]
  · unfold write_db
    cases readonly
    · simp only [Bool.false_eq_true, if_false]
      cases chargeGas limit used (writeCost key value) <;>
        simp [wellClassed, goResultCodes, GoResult.code]
    · simp [wellClassed, goResultCodes, GoResult.code]
  · unfold remove_db
    cases readonly
    · simp only [Bool.false_eq_true, if_false]
      cases chargeGas limit used (removeCost key) <;>
        simp [wellClassed, goResultCodes, GoResult.code]
    · simp [wellClassed, goResultCodes, GoResult.code]
  · unfold scan_db
    cases chargeGas limit used (scanCost start stop) <;>
      simp [wellClassed, goResultCodes, GoResult.code]
  · unfold next_db
    cases hit : it.entries with
    | nil => simp [wellClassed, goResultCodes, GoResult.code]
    | cons kv rest =>
        cases kv with
        | mk k v =>
            cases hg : chargeGas limit used (k.length + v.length + 1) <;>
              simp [wellClassed, goResultCodes, GoResult.code, hg]
  · unfold humanize_address
    cases humanizeAddr key with
    | none => simp [wellClassed, goResultCodes, GoResult.code]
    | some human =>
        cases chargeGas limit used (addrCost key) <;>
          simp [wellClassed, goResultCodes, GoResult.code]
  · unfold canonicalize_address
    cases canonicalizeAddr key with
    | none => simp [wellClassed, goResultCodes, GoResult.code]
    | some canon =>
        cases chargeGas limit used (addrCost key) <;>
          simp [wellClassed, goResultCodes, GoResult.code]
  · unfold query_external
    cases chargeGas limit used (request.length + 1) with
    | none => simp [wellClassed, goResultCodes, GoResult.code]
    | some g =>
        cases Store.get table request <;>
          simp [wellClassed, goResultCodes, GoResult.code]
  · intro habs hgas
    unfold read_db
    rw [habs, chargeGas, if_pos hgas]
    exact ⟨rfl, rfl⟩

theorem lookupEntry_mem {l : List (Bytes × CacheEntry)} {key : Bytes} {e : CacheEntry}
    (h : lookupEntry l key = some e) : (key, e) ∈ l := by
  induction l with
  | nil => cases h
  | cons p rest ih =>
      cases p with
      | mk k v =>
          simp only [lookupEntry] at h
          split at h
          · cases h
            subst key
            exact List.mem_cons_self _ _
          · exact List.mem_cons_of_mem _ (ih h)

/-- C4: if create(b) succeeds and returns checksum cs, then get_code on the
resulting cache at cs succeeds and returns bytes identical to b. -/
theorem create_get_code_roundtrip (c : Cache) (b cs : Bytes) (c' : Cache) (n : Nat)
    (hwf : cacheWF c = true) (h : c.create b = .ok (cs, c', n)) :
    c'.get_code cs = .ok b := by
  unfold Cache.create at h
  by_cases hr : c.released = true
  · rw [if_pos hr] at h; cases h
  · rw [if_neg hr] at h
    by_cases hv : validWasm b = true
    · rw [if_pos hv] at h
      cases he : lookupEntry c.entries (checksum b) with
      | some e =>
          rw [he] at h
          cases h
          have hmem := lookupEntry_mem he
          have hkey : checksum b = checksum e.bytecode := by
            have := List.all_eq_true.mp hwf _ hmem
            simp only [Bool.and_eq_true, decide_eq_true_eq] at this
            exact this.1.1
          have hb : e.bytecode = b := (checksum_injective hkey.symm)
          unfold Cache.get_code
          rw [if_neg hr, he]
          simp [hb]
      | none =>
          rw [he] at h
          cases h
          unfold Cache.get_code
          simp only
          rw [if_neg hr]
          simp [lookupEntry]
    · rw [if_neg hv] at h; cases h

/-- C5: the checksum is a deterministic function of the exact bytecode
bytes — create returns checksum b — and a second create with identical
bytes yields the same checksum and the same cache (hence the same cached
artifact) while performing zero fresh compilations. -/
theorem create_idempotent_no_recompile (c : Cache) (b cs : Bytes) (c' : Cache) (n : Nat)
    (h : c.create b = .ok (cs, c', n)) :
    cs = checksum b ∧ c'.create b = .ok (cs, c', 0) := by
  unfold Cache.create at h ⊢
  by_cases hr : c.released = true
  · rw [if_pos hr] at h; cases h
  · rw [if_neg hr] at h
    by_cases hv : validWasm b = true
    · rw [if_pos hv] at h
      cases he : lookupEntry c.entries (checksum b) with
      | some e =>
          rw [he] at h
          cases h
          refine ⟨rfl, ?_⟩
          rw [if_neg hr, if_pos hv, he]
      | none =>
          rw [he] at h
          cases h
          refine ⟨rfl, ?_⟩
          rw [if_neg hr, if_pos hv]
          simp [lookupEntry]
    · rw [if_neg hv] at h; cases h

/-- A concrete valid module: WebAssembly magic header, the IBC flag set in
byte 4, and a feature section declaring the two features "ibc,stk". -/
def wasmEx : Bytes := [0, 97, 115, 109, 1, 0, 0, 0, 105, 98, 99, 44, 115, 116, 107]

/-- The cache that create builds from wasmEx on an empty cache. -/
def cacheEx : Cache :=
  { released := false,
    entries := [(checksum wasmEx,
      { bytecode := wasmEx, artifact := compileArtifact wasmEx,
        features := requiredFeaturesOf wasmEx })] }

theorem create_get_code_roundtrip_witness : cacheEx.get_code (checksum wasmEx) = .ok wasmEx :=
  create_get_code_roundtrip emptyCache wasmEx (checksum wasmEx) cacheEx 1
    (by decide) (by rfl)

theorem create_idempotent_no_recompile_witness :
    checksum wasmEx = checksum wasmEx ∧
      cacheEx.create wasmEx = .ok (checksum wasmEx, cacheEx, 0) :=
  create_idempotent_no_recompile emptyCache wasmEx (checksum wasmEx) cacheEx 1 (by rfl)

/-- C6: each next call on an iterator returns either the next key/value
pair in the bound order or the explicit exhausted marker (a success with no
pair) — exhaustion is never an error — once the exhausted marker has been
returned the iterator is unchanged and every further next call returns
exhausted again; ascending scans enumerate their entries sorted by the key
order and a descending scan is the exact reverse; the spec's round-trip
example over the store a:1, b:2, c:3 behaves as stated. -/
theorem iterator_next_contract (s : Store) (start stop : Option Bytes)
    (limit used limit' used' : Nat) (it : GoIter) (k v : Bytes)
    (rest : List (Bytes × Bytes)) :
    (it.entries = [] → next_db limit used it = (.Ok, used, none, it, none)) ∧
    ((next_db limit used it).1 = .Ok → (next_db limit used it).2.2.1 = none →
      it.entries = [] ∧ (next_db limit used it).2.2.2.1 = it ∧
      next_db limit' used' ((next_db limit used it).2.2.2.1) = (.Ok, used', none, it, none)) ∧
    (it.entries = (k, v) :: rest → used + (k.length + v.length + 1) ≤ limit →
      next_db limit used it =
        (.Ok, used + (k.length + v.length + 1), some (k, v), ⟨rest⟩, none)) ∧
    List.Sorted entryLe (scanList s start stop false) ∧
    scanList s start stop true = (scanList s start stop false).reverse ∧
    scanList [([97], [1]), ([99], [3]), ([98], [2])] none none false =
      [([97], [1]), ([98], [2]), ([99], [3])] ∧
    scanList [([97], [1]), ([99], [3]), ([98], [2])] none none true =
      [([99], [3]), ([98], [2]), ([97], [1])] ∧
    next_db 100 0 ⟨[([97], [1]), ([98], [2]), ([99], [3])]⟩ =
      (.Ok, 3, some ([97], [1]), ⟨[([98], [2]), ([99], [3])]⟩, none) ∧
    next_db 100 3 ⟨[([98], [2]), ([99], [3])]⟩ =
      (.Ok, 6, some ([98], [2]), ⟨[([99], [3])]⟩, none) ∧
    next_db 100 6 ⟨[([99], [3])]⟩ = (.Ok, 9, some ([99], [3]), ⟨[]⟩, none) ∧
    next_db 100 9 ⟨[]⟩ = (.Ok, 9, none, ⟨[]⟩, none) ∧
    next_db 100 9 ((next_db 100 9 ⟨([] : List (Bytes × Bytes))⟩).2.2.2.1) =
      (.Ok, 9, none, ⟨[]⟩, none) := by
  refine ⟨?_, ?_, ?_, ?_, by simp [scanList], by decide, by decide, by decide, by decide,
    by decide, by decide, by decide⟩
  · intro h
    unfold next_db
    rw [h]
  · intro h1 h2
    cases it with
    | mk ents =>
        cases ents with
        | nil => exact ⟨rfl, rfl, rfl⟩
        | cons kv rest' =>
            exfalso
            cases kv with
            | mk k' v' =>
                simp only [next_db] at h1 h2
                cases hg : chargeGas limit used (k'.length + v'.length + 1) with
                | some g => rw [hg] at h2; simp at h2
                | none => rw [hg] at h1; simp at h1
  · intro h hgas
    have hg : chargeGas limit used (k.length + v.length + 1) =
        some (used + (k.length + v.length + 1)) := by
      unfold chargeGas
      rw [if_pos hgas]
    cases it with
    | mk ents =>
        change ents = (k, v) :: rest at h
        subst h
        simp only [next_db, hg]
  · simpa [scanList] using
      List.sorted_insertionSort entryLe (s.filter fun p => inScanRange start stop p.1)

theorem toLowerByte_canon {b : Nat} (h : isAddrByte b = true) :
    isCanonByte (toLowerByte b) = true := by
  simp only [isAddrByte, Bool.or_eq_true, Bool.and_eq_true, decide_eq_true_eq] at h
  simp only [isCanonByte, toLowerByte, Bool.or_eq_true, Bool.and_eq_true, decide_eq_true_eq]
  split <;> omega

theorem toLowerByte_idem (b : Nat) : toLowerByte (toLowerByte b) = toLowerByte b := by
  by_cases h : 65 ≤ b ∧ b ≤ 90
  · have h1 : toLowerByte b = b + 32 := by
      unfold toLowerByte
      rw [if_pos h]
    rw [h1]
    unfold toLowerByte
    rw [if_neg (by omega)]
  · have h1 : toLowerByte b = b := by
      unfold toLowerByte
      rw [if_neg h]
    rw [h1]
    exact h1

/-- C7: for every syntactically valid human address x, canonicalize
succeeds and humanize of its output succeeds with an address equivalent
(same normalization, not necessarily byte-identical) to x; canonicalize of
a malformed input fails, and the canonicalize_address callback reports it
as a bad-argument outcome with an explanatory message. -/
theorem address_roundtrip (x : Bytes) (limit used : Nat) :
    (validHuman x = true →
      canonicalizeAddr x = some (x.map toLowerByte) ∧
      humanizeAddr (x.map toLowerByte) = some (x.map toLowerByte) ∧
      addrEquiv (x.map toLowerByte) x = true) ∧
    (validHuman x = false →
      canonicalizeAddr x = none ∧
      (canonicalize_address limit used x).1 = .BadArgument ∧
      (canonicalize_address limit used x).2.2.2 = some "invalid address") := by
  constructor
  · intro hv
    have hcanon : canonicalizeAddr x = some (x.map toLowerByte) := by
      unfold canonicalizeAddr
      rw [if_pos hv]
    refine ⟨hcanon, ?_, ?_⟩
    · unfold humanizeAddr
      rw [if_pos ?_]
      unfold validHuman at hv
      simp only [validCanon, Bool.and_eq_true, Bool.not_eq_eq_eq_not, Bool.not_true] at hv ⊢
      refine ⟨?_, ?_⟩
      · cases x with
        | nil => cases hv.1
        | cons a l => rfl
      · rw [List.all_map]
        refine List.all_eq_true.mpr fun b hb => ?_
        exact toLowerByte_canon (List.all_eq_true.mp hv.2 b hb)
    · simp only [addrEquiv, decide_eq_true_eq, List.map_map]
      exact List.map_congr_left fun a _ => toLowerByte_idem a
  · intro hv
    have hcanon : canonicalizeAddr x = none := by
      unfold canonicalizeAddr
      rw [if_neg (by rw [hv]; intro hc; cases hc)]
    refine ⟨hcanon, ?_, ?_⟩ <;>
      · unfold canonicalize_address
        rw [hcanon]

theorem address_roundtrip_example :
    canonicalizeAddr [83, 101, 99, 49] = some [115, 101, 99, 49] ∧
    humanizeAddr [115, 101, 99, 49] = some [115, 101, 99, 49] ∧
    addrEquiv [115, 101, 99, 49] [83, 101, 99, 49] = true ∧
    canonicalizeAddr [33] = none := by
  decide

/-- C8: init_node fails closed — with a master key that does not match the
encrypted seed's integrity tag it returns false, performs no partial
initialization, and leaves the enclave bootstrapped; a subsequent call with
a matching master key and seed returns true and moves the enclave to
node_initialized. -/
theorem init_node_fails_closed (mk₁ mk₂ : Bytes) (es₁ es₂ : EncryptedSeed)
    (hbad : sealTag mk₁ es₁.payload ≠ es₁.tag)
    (hgood : sealTag mk₂ es₂.payload = es₂.tag) :
    init_node .bootstrapped mk₁ es₁ = (false, .bootstrapped) ∧
    init_node (init_node .bootstrapped mk₁ es₁).2 mk₂ es₂ =
      (true, .nodeInitialized es₂.payload) := by
  have h1 : init_node .bootstrapped mk₁ es₁ = (false, .bootstrapped) := by
    unfold init_node
    rw [if_neg hbad]
  refine ⟨h1, ?_⟩
  rw [h1]
  unfold init_node
  rw [if_pos hgood]

theorem init_node_fails_closed_witness :
    init_node .bootstrapped [1] ⟨[9], [5]⟩ = (false, .bootstrapped) ∧
    init_node (init_node .bootstrapped [1] ⟨[9], [5]⟩).2 [1] ⟨[2, 1, 7], [7]⟩ =
      (true, .nodeInitialized [7]) :=
  init_node_fails_closed [1] [1] ⟨[9], [5]⟩ ⟨[2, 1, 7], [7]⟩ (by decide) (by decide)

/-- C9: after release_cache, every cache operation — create, get_code,
analyze_code, instantiate, handle (execute), query — fails with a
bad-argument-class outcome carrying an explanatory message, and the
execution entry points consume no gas and leave the caller's store
untouched, rather than silently succeeding. -/
theorem released_cache_rejected (c : Cache) (b cs : Bytes) (ops : List ContractOp)
    (store : Store) (limit : Nat) :
    (c.release_cache).create b = .error ⟨.BadArgument, "cache released"⟩ ∧
    (c.release_cache).get_code cs = .error ⟨.BadArgument, "cache released"⟩ ∧
    (c.release_cache).analyze_code cs = .error ⟨.BadArgument, "cache released"⟩ ∧
    (c.release_cache).instantiate cs ops store limit =
      { result := .BadArgument, store := store, gasUsed := 0,
        output := none, errMsg := some "cache released" } ∧
    (c.release_cache).handle cs ops store limit =
      { result := .BadArgument, store := store, gasUsed := 0,
        output := none, errMsg := some "cache released" } ∧
    (c.release_cache).query cs ops store limit =
      { result := .BadArgument, store := store, gasUsed := 0,
        output := none, errMsg := some "cache released" } :=
  ⟨rfl, rfl, rfl, rfl, rfl, rfl⟩

/-- C10: for every AnalysisReport a successful analyze_code call returns,
the required_features buffer is present (never the null/unset buffer): it
is the possibly zero-length comma-separated join of the module's declared
feature list. -/
theorem analyze_code_features_present (c : Cache) (cs : Bytes) (r : AnalysisReport)
    (h : c.analyze_code cs = .ok r) :
    r.required_features.isSome = true ∧
    ∃ e, lookupEntry c.entries cs = some e ∧
      r.required_features = some (featureJoin e.features) := by
  unfold Cache.analyze_code at h
  by_cases hr : c.released = true
  · rw [if_pos hr] at h
    cases h
  · rw [if_neg hr] at h
    cases he : lookupEntry c.entries cs with
    | none => rw [he] at h; cases h
    | some e =>
        rw [he] at h
        cases h
        exact ⟨rfl, e, rfl, rfl⟩

theorem analyze_code_features_present_witness :
    (AnalysisReport.mk true (some [105, 98, 99, 44, 115, 116, 107])).required_features.isSome
        = true ∧
    ∃ e, lookupEntry cacheEx.entries (checksum wasmEx) = some e ∧
      (AnalysisReport.mk true (some [105, 98, 99, 44, 115, 116, 107])).required_features =
        some (featureJoin e.features) :=
  analyze_code_features_present cacheEx (checksum wasmEx)
    (AnalysisReport.mk true (some [105, 98, 99, 44, 115, 116, 107])) (by rfl)

end SecretNet
